import Mathlib

/-!
Formal model of the ColorElephant staking-session core (src/main.py):
the stake calculator (`nearest_ten`, `percent_of`), the outcome enumerator
(`generate_possible_outcome_sequences`), the session-profit simulator
(`simulate_session_profit_for_path`), the daily-profit estimator
(`compute_all_session_profits`, `compute_weighted_daily_profit`), and the
live session state machine (`process_balance`, `handle_result`).

Python floats are modelled as exact rationals (`ℚ`); all float arithmetic
performed by the source on the values that occur (integer balances, stakes
that are multiples of ten, a 0.10 tax on such stakes) is exact in IEEE
doubles for realistic magnitudes, so this is faithful on the reachable
values.  Fallible operations (list indexing that can raise `IndexError`)
are modelled with `Option`.
-/

inductive Outcome
  | W
  | L
deriving DecidableEq

inductive Case
  | case1
  | case2
deriving DecidableEq

inductive Remark
  | worstCase
  | bestCase
  | moderate
deriving DecidableEq

/-- `CASE1 = [10, 10, 15, 30, 50]` from src/main.py. -/
def CASE1 : List ℕ := [10, 10, 15, 30, 50]

/-- `CASE2 = [10, 25, 65]` from src/main.py. -/
def CASE2 : List ℕ := [10, 25, 65]

/-- `TAX_RATE = 0.10` from src/main.py. -/
def TAX_RATE : ℚ := 0.10

/-- `nearest_ten(value) = int(floor(value / 10) * 10)` from src/main.py. -/
def nearest_ten (value : ℚ) : ℤ := 10 * ⌊value / 10⌋

/-- `percent_of(balance, pct) = nearest_ten(balance * pct / 100)` from src/main.py. -/
def percent_of (balance pct : ℚ) : ℤ := nearest_ten (balance * pct / 100)

/-- Python list indexing `l[i]`: negative indices count from the end,
an index out of range raises `IndexError` (modelled as `none`). -/
def pyIdx (l : List ℕ) (i : ℤ) : Option ℕ :=
  let j : ℤ := if i < 0 then i + l.length else i
  if 0 ≤ j ∧ j < (l.length : ℤ) then some (l.getD j.toNat 0) else none

/-- Loop body of `simulate_session_profit_for_path` (src/main.py lines 526-540):
iterates over the outcomes with 1-based `round_no = i + 1`, stops past the
schedule length, adds the after-tax gain on a win (breaking when `round_no > 1`)
and subtracts the stake on a loss. -/
def simulateAux (base_balance : ℤ) (percentages : List ℕ) :
    ℕ → ℚ → List Outcome → ℚ
  | _, profit, [] => profit
  | i, profit, res :: rest =>
    let round_no := i + 1
    if round_no > percentages.length then profit
    else
      let pct : ℕ := percentages.getD (round_no - 1) 0
      let invest : ℤ := nearest_ten ((base_balance : ℚ) * (pct : ℚ) / 100)
      match res with
      | Outcome.W =>
        let gross_profit : ℚ := (invest : ℚ)
        let tax : ℚ := gross_profit * TAX_RATE
        let net : ℚ := gross_profit - tax
        if round_no > 1 then profit + net
        else simulateAux base_balance percentages (i + 1) (profit + net) rest
      | Outcome.L =>
        simulateAux base_balance percentages (i + 1) (profit - (invest : ℚ)) rest

/-- `simulate_session_profit_for_path(base_balance, outcomes)` from src/main.py
lines 517-542.  On the empty list the source raises `IndexError`
(`outcomes[0]`), modelled as `none`. -/
def simulate_session_profit_for_path (base_balance : ℤ) (outcomes : List Outcome) :
    Option ℤ :=
  match outcomes with
  | [] => none
  | first :: _ =>
    let percentages := if first = Outcome.W then CASE1 else CASE2
    some (nearest_ten (simulateAux base_balance percentages 0 0 outcomes))

/-- The inner `rec(seq)` of `generate_possible_outcome_sequences`
(src/main.py lines 548-567). -/
def genRec (seq : List Outcome) : List (List Outcome) :=
  if seq.length ≥ 1 ∧ seq.getLast? = some Outcome.W ∧ 1 < seq.length then
    [seq]
  else if seq.length = 0 then
    genRec (seq ++ [Outcome.W]) ++ genRec (seq ++ [Outcome.L])
  else
    let max_len := if seq.head? = some Outcome.W then CASE1.length else CASE2.length
    if seq.length ≥ max_len then
      [seq]
    else
      genRec (seq ++ [Outcome.W]) ++ genRec (seq ++ [Outcome.L])
termination_by 6 - seq.length
decreasing_by
  · simp_all [CASE1, CASE2]
  · simp_all [CASE1, CASE2]
  · have h5 : max_len ≤ 5 := by unfold max_len; split <;> decide
    simp_all
    omega
  · have h5 : max_len ≤ 5 := by unfold max_len; split <;> decide
    simp_all
    omega

/-- `generate_possible_outcome_sequences()` from src/main.py lines 545-569:
runs `rec([])` and keeps the non-empty sequences. -/
def generate_possible_outcome_sequences : List (List Outcome) :=
  (genRec []).filter (fun s => !s.isEmpty)

/-- The enumerator evaluates to its eight concrete sequences. -/
theorem genSeqs_eq :
    generate_possible_outcome_sequences =
      [[Outcome.W, Outcome.W],
       [Outcome.W, Outcome.L, Outcome.W],
       [Outcome.W, Outcome.L, Outcome.L, Outcome.W],
       [Outcome.W, Outcome.L, Outcome.L, Outcome.L, Outcome.W],
       [Outcome.W, Outcome.L, Outcome.L, Outcome.L, Outcome.L],
       [Outcome.L, Outcome.W],
       [Outcome.L, Outcome.L, Outcome.W],
       [Outcome.L, Outcome.L, Outcome.L]] := by
  simp [generate_possible_outcome_sequences, genRec, CASE1, CASE2]

/-- `compute_all_session_profits(base_balance)` from src/main.py lines 572-578:
pairs every enumerated sequence with its simulated profit. -/
def compute_all_session_profits (base_balance : ℤ) :
    Option (List (List Outcome × ℤ)) :=
  generate_possible_outcome_sequences.mapM
    (fun s => (simulate_session_profit_for_path base_balance s).map (fun p => (s, p)))

/-- `compute_weighted_daily_profit(base_balance)` from src/main.py lines 581-593. -/
def compute_weighted_daily_profit (base_balance : ℤ) : Option ℤ :=
  match compute_all_session_profits base_balance with
  | none => none
  | some all_profits =>
    if all_profits.isEmpty then some 0
    else
      let profits : List ℤ := all_profits.map (fun x => x.2)
      if profits.isEmpty then some 0
      else
        match profits.min? with
        | none => none
        | some worst =>
          let others : List ℤ := profits.filter (fun x => x ≠ worst)
          let avg_others : ℚ :=
            if others.isEmpty then (worst : ℚ)
            else ((others.sum : ℤ) : ℚ) / ((others.length : ℕ) : ℚ)
          let weighted : ℚ := (0.8 : ℚ) * (worst : ℚ) + (0.2 : ℚ) * avg_others
          some (nearest_ten weighted)

/-- On a non-empty outcome list the simulator returns a value (the `IndexError`
branch is only the empty list). -/
theorem sim_cons (b : ℤ) (o : Outcome) (rest : List Outcome) :
    simulate_session_profit_for_path b (o :: rest) =
      some (nearest_ten
        (simulateAux b (if o = Outcome.W then CASE1 else CASE2) 0 0 (o :: rest))) :=
  rfl

/-- Simulated profit of a sequence, with default 0 (every enumerated sequence
is non-empty, so the default is never used there). -/
def simProfitD (b : ℤ) (s : List Outcome) : ℤ :=
  (simulate_session_profit_for_path b s).getD 0

/-- `compute_all_session_profits` never raises: on the eight enumerated
sequences the simulator always returns a value. -/
theorem cap_eq (b : ℤ) :
    compute_all_session_profits b =
      some (generate_possible_outcome_sequences.map (fun s => (s, simProfitD b s))) := by
  rw [compute_all_session_profits, genSeqs_eq]
  rfl


/-- C4: with no input, the enumerator returns exactly the eight outcome
sequences {W,W; W,L,W; W,L,L,W; W,L,L,L,W; W,L,L,L,L; L,W; L,L,W; L,L,L};
every Win-rooted sequence is bounded by Case A's length 5 and every
Lose-rooted one by Case B's length 3; the output has no duplicates; and no
returned sequence is a strict prefix of another. -/
theorem C4_enumerator_exact :
    generate_possible_outcome_sequences =
      [[Outcome.W, Outcome.W],
       [Outcome.W, Outcome.L, Outcome.W],
       [Outcome.W, Outcome.L, Outcome.L, Outcome.W],
       [Outcome.W, Outcome.L, Outcome.L, Outcome.L, Outcome.W],
       [Outcome.W, Outcome.L, Outcome.L, Outcome.L, Outcome.L],
       [Outcome.L, Outcome.W],
       [Outcome.L, Outcome.L, Outcome.W],
       [Outcome.L, Outcome.L, Outcome.L]] ∧
    generate_possible_outcome_sequences.Nodup ∧
    (∀ s ∈ generate_possible_outcome_sequences,
      ∀ t ∈ generate_possible_outcome_sequences, s <+: t → s = t) ∧
    (∀ s ∈ generate_possible_outcome_sequences,
      (s.head? = some Outcome.W → s.length ≤ CASE1.length) ∧
      (s.head? = some Outcome.L → s.length ≤ CASE2.length)) := by
  refine ⟨genSeqs_eq, ?_, ?_, ?_⟩ <;> rw [genSeqs_eq] <;> decide

/-- C7: for non-negative balance and positive percent, the stake is a
multiple of 10 and at most `balance * percent / 100` (floor-to-ten applied
after the multiplication); concretely `stake(1000,10) = 100`,
`stake(1005,10) = 100`, `stake(996,10) = 90`. -/
theorem C7_stake_calculator :
    (∀ balance percent : ℚ, 0 ≤ balance → 0 < percent →
        percent_of balance percent % 10 = 0 ∧
        ((percent_of balance percent : ℚ) ≤ balance * percent / 100)) ∧
    percent_of 1000 10 = 100 ∧ percent_of 1005 10 = 100 ∧ percent_of 996 10 = 90 := by
  refine ⟨fun b p _ _ => ⟨Int.mul_emod_right 10 _, ?_⟩,
    by norm_num [percent_of, nearest_ten], by norm_num [percent_of, nearest_ten],
    by norm_num [percent_of, nearest_ten]⟩
  have h := Int.floor_le (b * p / 100 / 10)
  rw [percent_of, nearest_ten]
  push_cast
  linarith

/-- C7 witness: the universally quantified part applied at balance 1000,
percent 10. -/
theorem C7_stake_calculator_witness :
    (0 : ℚ) ≤ 1000 ∧ (0 : ℚ) < 10 ∧
    percent_of 1000 10 % 10 = 0 ∧ ((percent_of 1000 10 : ℚ) ≤ 1000 * 10 / 100) :=
  ⟨by norm_num, by norm_num,
   (C7_stake_calculator.1 1000 10 (by norm_num) (by norm_num)).1,
   (C7_stake_calculator.1 1000 10 (by norm_num) (by norm_num)).2⟩

/-- C8 counterexample: on the empty outcome sequence the simulator does not
complete: `outcomes[0]` raises `IndexError` (modelled as `none`), so the
claim that it completes for every outcome-sequence argument, including the
empty sequence, is false. -/
theorem C8_counterexample_empty :
    simulate_session_profit_for_path 1000 [] = none := rfl

/-- C8 (amended): enumeration is a fixed terminating computation (eight
sequences), and for every balance the simulator completes on every
NON-EMPTY outcome sequence, including sequences longer than their terminal
point; on the empty sequence it raises `IndexError`. -/
theorem C8_total_on_nonempty :
    generate_possible_outcome_sequences.length = 8 ∧
    (∀ (b : ℤ) (outs : List Outcome), outs ≠ [] →
      (simulate_session_profit_for_path b outs).isSome) := by
  refine ⟨by rw [genSeqs_eq]; rfl, fun b outs h => ?_⟩
  match outs, h with
  | o :: rest, _ => rw [sim_cons]; rfl

/-- C8 witness: totality applied to balance 1000 and a sequence longer than
its terminal point. -/
theorem C8_total_on_nonempty_witness :
    ([Outcome.W, Outcome.W, Outcome.L, Outcome.L, Outcome.L, Outcome.L, Outcome.W] :
      List Outcome) ≠ [] ∧
    (simulate_session_profit_for_path 1000
      [Outcome.W, Outcome.W, Outcome.L, Outcome.L, Outcome.L, Outcome.L, Outcome.W]).isSome :=
  ⟨by decide,
   C8_total_on_nonempty.2 1000
     [Outcome.W, Outcome.W, Outcome.L, Outcome.L, Outcome.L, Outcome.L, Outcome.W]
     (by decide)⟩

/-- Spec wording for C6: the simulated profits over all enumerated
sequences for a balance. -/
def simProfits (b : ℤ) : List ℤ :=
  generate_possible_outcome_sequences.filterMap (simulate_session_profit_for_path b)

/-- Spec wording for C6: `worst` is the minimum of the simulated profits. -/
def worstProfit (b : ℤ) : ℤ := (simProfits b).min?.getD 0

/-- Spec wording for C6: the multiset of profits not equal by value to `worst`. -/
def othersProfits (b : ℤ) : List ℤ :=
  (simProfits b).filter (fun x => x ≠ worstProfit b)

/-- Spec wording for C6: arithmetic mean of the others, or `worst` itself when
`others` is empty. -/
def avgOthers (b : ℤ) : ℚ :=
  if othersProfits b = [] then (worstProfit b : ℚ)
  else ((othersProfits b).sum : ℚ) / ((othersProfits b).length : ℚ)

/-- Spec wording for C6: `round10(0.8 * worst + 0.2 * avg_others)`. -/
def weightedSpec (b : ℤ) : ℤ :=
  nearest_ten ((0.8 : ℚ) * (worstProfit b : ℚ) + (0.2 : ℚ) * avgOthers b)

theorem simProfits_eq (b : ℤ) :
    simProfits b = generate_possible_outcome_sequences.map (simProfitD b) := by
  rw [simProfits, genSeqs_eq]
  rfl

/-- C6: for every balance, the weighted daily profit equals
`round10(0.8 * worst + 0.2 * avg_others)` per the spec's formula. -/
theorem C6_weighted_daily_profit (b : ℤ) :
    compute_weighted_daily_profit b = some (weightedSpec b) := by
  obtain ⟨g, gs, hG⟩ :
      ∃ g gs, generate_possible_outcome_sequences = g :: gs := by
    rw [genSeqs_eq]; exact ⟨_, _, rfl⟩
  rw [compute_weighted_daily_profit.eq_def, cap_eq b]
  rw [weightedSpec, avgOthers, othersProfits, worstProfit, simProfits_eq]
  rw [hG]
  simp only [List.map_cons, List.isEmpty_cons, List.map_map, Function.comp_def,
    List.min?, Option.getD_some, Bool.false_eq_true, if_false, List.isEmpty_iff]

/-- Live per-player session state: the `context.user_data` keys written by
`process_balance` / `handle_result` in src/main.py.  `none` at the
`Option Session` level models a cleared or never-started `user_data`. -/
structure Session where
  BaseBalance : ℤ
  Round : ℕ
  Path : Option Case
  Wins : ℕ
  Losses : ℕ
  TotalPlaced : ℤ
  Profit : ℤ
  seq : List Outcome
deriving DecidableEq

/-- The `.get(key, default)` fallbacks used by `handle_result`
(src/main.py lines 621-627 and 657). -/
def defaultSession : Session :=
  { BaseBalance := 0, Round := 1, Path := none, Wins := 0, Losses := 0,
    TotalPlaced := 0, Profit := 0, seq := [] }

/-- What `handle_result` sends back: the next round's stake announcement or
the terminal session summary. -/
inductive HandleOutput
  | advance (next_round : ℕ) (stake : ℤ)
  | summary (rounds wins losses : ℕ)
      (placed profit profit_after_tax updated_balance : ℤ) (remark : Remark)
deriving DecidableEq

/-- Session start in `process_balance` (src/main.py lines 490-510): floor the
submitted balance to the nearest ten, reset every field, compute the round-1
stake from `CASE1[0]` and add it to `TotalPlaced`; returns the new state and
the announced round-1 stake. -/
def process_balance (input : ℚ) : Session × ℤ :=
  let balance : ℤ := nearest_ten input
  let investment : ℤ := percent_of (balance : ℚ) ((CASE1.headD 0 : ℕ) : ℚ)
  ({ BaseBalance := balance, Round := 1, Path := none, Wins := 0, Losses := 0,
     TotalPlaced := 0 + investment, Profit := 0, seq := [] }, investment)

/-- `handle_result` (src/main.py lines 600-727), the round-result transition:
reads every field with its dict default, derives the case at round 1,
adds the current round's stake to `TotalPlaced` (again), applies the win tax
or the loss, appends the tag to the sequence, computes the best/worst remark,
and either emits the terminal summary (clearing the state) or announces the
next round's stake (adding it to `TotalPlaced` as well).  `none` models a
Python exception (schedule index out of range). -/
def handle_result (st : Option Session) (data : Outcome) :
    Option (HandleOutput × Option Session) :=
  let s := st.getD defaultSession
  let base_balance := s.BaseBalance
  let round_num := s.Round
  let total_placed := s.TotalPlaced
  let profit0 : ℚ := (s.Profit : ℚ)
  let path : Option Case :=
    if round_num = 1 then
      some (if data = Outcome.W then Case.case1 else Case.case2)
    else s.Path
  let percentages : List ℕ := if path = some Case.case1 then CASE1 else CASE2
  let total_rounds := percentages.length
  match pyIdx percentages ((round_num : ℤ) - 1) with
  | none => none
  | some pct =>
    let investment : ℤ := percent_of (base_balance : ℚ) (pct : ℚ)
    let total1 : ℤ := total_placed + investment
    let wins1 := if data = Outcome.W then s.Wins + 1 else s.Wins
    let losses1 := if data = Outcome.W then s.Losses else s.Losses + 1
    let profit1 : ℚ :=
      if data = Outcome.W then
        profit0 + ((investment : ℚ) - (investment : ℚ) * TAX_RATE)
      else profit0 - (investment : ℚ)
    let seq1 := s.seq ++ [data]
    match compute_all_session_profits base_balance with
    | none => none
    | some all_profits =>
      let sorted_by_profit := all_profits.mergeSort (fun x y => x.2 ≤ y.2)
      let worst_seq : List Outcome :=
        if all_profits.isEmpty then [] else (sorted_by_profit.headD ([], 0)).1
      let best_seq : List Outcome :=
        if all_profits.isEmpty then [] else (sorted_by_profit.getLastD ([], 0)).1
      let remark : Remark :=
        if seq1 = worst_seq then Remark.worstCase
        else if seq1 = best_seq then Remark.bestCase
        else Remark.moderate
      if data = Outcome.W ∧ 1 < round_num then
        let profit_after_tax : ℤ := nearest_ten profit1
        let updated_balance : ℤ :=
          nearest_ten ((base_balance : ℚ) + (profit_after_tax : ℚ))
        some (HandleOutput.summary round_num wins1 losses1 total1
          (nearest_ten profit1) (nearest_ten ((profit_after_tax : ℤ) : ℚ))
          (nearest_ten ((updated_balance : ℤ) : ℚ)) remark, none)
      else if total_rounds ≤ round_num then
        let profit_after_tax : ℤ := nearest_ten profit1
        let updated_balance : ℤ :=
          nearest_ten ((base_balance : ℚ) + (profit_after_tax : ℚ))
        some (HandleOutput.summary round_num wins1 losses1 total1
          (nearest_ten profit1) (nearest_ten ((profit_after_tax : ℤ) : ℚ))
          (nearest_ten ((updated_balance : ℤ) : ℚ)) remark, none)
      else
        let next_round := round_num + 1
        match pyIdx percentages ((next_round : ℤ) - 1) with
        | none => none
        | some next_percent =>
          let invest_amount : ℤ := percent_of (base_balance : ℚ) (next_percent : ℚ)
          let total2 := total1 + invest_amount
          some (HandleOutput.advance next_round invest_amount,
            some { BaseBalance := base_balance, Round := next_round, Path := path,
                   Wins := wins1, Losses := losses1, TotalPlaced := total2,
                   Profit := nearest_ten profit1, seq := seq1 })

/-- Caller harness: submit the outcomes in order to the state machine,
stopping at the first terminal summary.  `none` when the machine raised or
the outcomes ran out before any summary. -/
def runRounds : Option Session → List Outcome → Option HandleOutput
  | _, [] => none
  | st, o :: rest =>
    match handle_result st o with
    | none => none
    | some (out, none) => some out
    | some (_, some s') => runRounds (some s') rest

/-- Begin a session with `balance` (via `process_balance`) and play `outs`. -/
def runSession (balance : ℚ) (outs : List Outcome) : Option HandleOutput :=
  runRounds (some (process_balance balance).1) outs

/-- The terminal summary's net profit ("Profit Made"). -/
def liveFinalProfit (balance : ℚ) (outs : List Outcome) : Option ℤ :=
  match runSession balance outs with
  | some (HandleOutput.summary _ _ _ _ p _ _ _) => some p
  | _ => none

/-- The terminal summary's "Amount Placed". -/
def liveFinalPlaced (balance : ℚ) (outs : List Outcome) : Option ℤ :=
  match runSession balance outs with
  | some (HandleOutput.summary _ _ _ placed _ _ _ _) => some placed
  | _ => none

/-- The successive values of `TotalPlaced` along a run, after the terminal
round giving the summary's "Amount Placed". -/
def placedTraceAux : Option Session → List Outcome → List ℤ
  | _, [] => []
  | st, o :: rest =>
    match handle_result st o with
    | none => []
    | some (HandleOutput.summary _ _ _ placed _ _ _ _, none) => [placed]
    | some (_, some s') => s'.TotalPlaced :: placedTraceAux (some s') rest
    | some (_, none) => []

/-- `TotalPlaced` at session start and then after each processed round. -/
def placedTrace (balance : ℚ) (outs : List Outcome) : List ℤ :=
  (process_balance balance).1.TotalPlaced ::
    placedTraceAux (some (process_balance balance).1) outs

/-- The case in force during a `handle_result` step: derived from the
outcome at round 1, the stored `Path` afterwards. -/
def effPath (s : Session) (o : Outcome) : Option Case :=
  if s.Round = 1 then some (if o = Outcome.W then Case.case1 else Case.case2)
  else s.Path

/-- The percentage schedule used by a `handle_result` step. -/
def effSched (s : Session) (o : Outcome) : List ℕ :=
  if effPath s o = some Case.case1 then CASE1 else CASE2

/-- The unrounded profit accumulated by a `handle_result` step that stakes
`percent_of(base, pct)`: win adds the stake net of tax, loss subtracts it. -/
def stepProfit (s : Session) (o : Outcome) (pct : ℕ) : ℚ :=
  if o = Outcome.W then
    (s.Profit : ℚ) + ((percent_of (s.BaseBalance : ℚ) (pct : ℚ) : ℚ) -
      (percent_of (s.BaseBalance : ℚ) (pct : ℚ) : ℚ) * TAX_RATE)
  else (s.Profit : ℚ) - (percent_of (s.BaseBalance : ℚ) (pct : ℚ) : ℚ)

theorem pyIdx_lt (l : List ℕ) (n : ℕ) (h : n < l.length) :
    pyIdx l (n : ℤ) = some (l.getD n 0) := by
  simp only [pyIdx]
  have h1 : ¬((n : ℤ) < 0) := by omega
  rw [if_neg h1]
  have h2 : (0 : ℤ) ≤ (n : ℤ) ∧ (n : ℤ) < (l.length : ℤ) := by
    refine ⟨by omega, ?_⟩
    exact_mod_cast h
  rw [if_pos h2]
  simp

theorem pyIdx_round (l : List ℕ) (r : ℕ) (h1 : 1 ≤ r) (h2 : r ≤ l.length) :
    pyIdx l ((r : ℤ) - 1) = some (l.getD (r - 1) 0) := by
  have e : ((r : ℤ) - 1) = ((r - 1 : ℕ) : ℤ) := by omega
  rw [e, pyIdx_lt]
  omega

/-- A `handle_result` step whose termination condition holds emits a summary
(rounds played, win/loss counters, total placed, rounded profit) and clears
the session state. -/
theorem handle_result_terminal (s : Session) (o : Outcome) (pct : ℕ)
    (hp : pyIdx (effSched s o) ((s.Round : ℤ) - 1) = some pct)
    (hT : (o = Outcome.W ∧ 1 < s.Round) ∨ (effSched s o).length ≤ s.Round) :
    ∃ (pat ub : ℤ) (rem : Remark),
      handle_result (some s) o =
        some (HandleOutput.summary s.Round
          (if o = Outcome.W then s.Wins + 1 else s.Wins)
          (if o = Outcome.W then s.Losses else s.Losses + 1)
          (s.TotalPlaced + percent_of (s.BaseBalance : ℚ) (pct : ℚ))
          (nearest_ten (stepProfit s o pct)) pat ub rem, none) := by
  simp only [effSched, effPath] at hp hT
  unfold handle_result
  simp only [Option.getD_some]
  rw [hp]
  rw [cap_eq s.BaseBalance]
  simp only [stepProfit, TAX_RATE]
  rcases hT with h | h
  · rw [if_pos h]
    exact ⟨_, _, _, rfl⟩
  · by_cases h1 : o = Outcome.W ∧ 1 < s.Round
    · rw [if_pos h1]
      exact ⟨_, _, _, rfl⟩
    · rw [if_neg h1, if_pos h]
      exact ⟨_, _, _, rfl⟩

/-- A `handle_result` step whose termination condition fails advances to the
next round: it announces the next stake, adds it to `TotalPlaced` on top of
the current round's re-added stake, and stores the updated fields. -/
theorem handle_result_advance (s : Session) (o : Outcome) (pct npct : ℕ)
    (hp : pyIdx (effSched s o) ((s.Round : ℤ) - 1) = some pct)
    (hnp : pyIdx (effSched s o) (((s.Round + 1 : ℕ) : ℤ) - 1) = some npct)
    (hNT : ¬((o = Outcome.W ∧ 1 < s.Round) ∨ (effSched s o).length ≤ s.Round)) :
    handle_result (some s) o =
      some (HandleOutput.advance (s.Round + 1) (percent_of (s.BaseBalance : ℚ) (npct : ℚ)),
        some { BaseBalance := s.BaseBalance, Round := s.Round + 1, Path := effPath s o,
               Wins := if o = Outcome.W then s.Wins + 1 else s.Wins,
               Losses := if o = Outcome.W then s.Losses else s.Losses + 1,
               TotalPlaced := s.TotalPlaced + percent_of (s.BaseBalance : ℚ) (pct : ℚ) +
                 percent_of (s.BaseBalance : ℚ) (npct : ℚ),
               Profit := nearest_ten (stepProfit s o pct), seq := s.seq ++ [o] }) := by
  have h1 : ¬(o = Outcome.W ∧ 1 < s.Round) := fun a => hNT (Or.inl a)
  have h2 : ¬((effSched s o).length ≤ s.Round) := fun a => hNT (Or.inr a)
  simp only [effSched, effPath] at hp hnp h2 ⊢
  unfold handle_result
  simp only [Option.getD_some]
  rw [hp]
  rw [cap_eq s.BaseBalance]
  simp only [stepProfit, TAX_RATE]
  rw [if_neg h1, if_neg h2]
  rw [hnp]

/-- The best/worst remark computed by `handle_result` (src/main.py lines
662-679) for a given base balance and played sequence. -/
def summaryRemark (base : ℤ) (seq1 : List Outcome) : Remark :=
  match compute_all_session_profits base with
  | none => Remark.moderate
  | some all_profits =>
    let sorted_by_profit := all_profits.mergeSort (fun x y => x.2 ≤ y.2)
    let worst_seq : List Outcome :=
      if all_profits.isEmpty then [] else (sorted_by_profit.headD ([], 0)).1
    let best_seq : List Outcome :=
      if all_profits.isEmpty then [] else (sorted_by_profit.getLastD ([], 0)).1
    if seq1 = worst_seq then Remark.worstCase
    else if seq1 = best_seq then Remark.bestCase
    else Remark.moderate

/-- `handle_result_terminal` with the session destructured and every summary
field explicit (for rewriting). -/
theorem handle_result_terminal_mk (B : ℤ) (r : ℕ) (P : Option Case) (w l : ℕ)
    (T q : ℤ) (sq : List Outcome) (o : Outcome) (pct : ℕ)
    (hp : pyIdx (effSched ⟨B, r, P, w, l, T, q, sq⟩ o) ((r : ℤ) - 1) = some pct)
    (hT : (o = Outcome.W ∧ 1 < r) ∨ (effSched ⟨B, r, P, w, l, T, q, sq⟩ o).length ≤ r) :
    handle_result (some ⟨B, r, P, w, l, T, q, sq⟩) o =
      some (HandleOutput.summary r
        (if o = Outcome.W then w + 1 else w)
        (if o = Outcome.W then l else l + 1)
        (T + percent_of (B : ℚ) (pct : ℚ))
        (nearest_ten (stepProfit ⟨B, r, P, w, l, T, q, sq⟩ o pct))
        (nearest_ten ((nearest_ten (stepProfit ⟨B, r, P, w, l, T, q, sq⟩ o pct) : ℤ) : ℚ))
        (nearest_ten ((nearest_ten ((B : ℚ) +
          ((nearest_ten (stepProfit ⟨B, r, P, w, l, T, q, sq⟩ o pct) : ℤ) : ℚ)) : ℤ) : ℚ))
        (summaryRemark B (sq ++ [o])), none) := by
  simp only [effSched, effPath] at hp hT
  unfold handle_result
  simp only [Option.getD_some]
  rw [hp]
  rw [cap_eq B]
  simp only [stepProfit, TAX_RATE, summaryRemark]
  rw [cap_eq B]
  rcases hT with h | h
  · rw [if_pos h]
  · by_cases h1 : o = Outcome.W ∧ 1 < r
    · rw [if_pos h1]
    · rw [if_neg h1, if_pos h]

/-- `handle_result_advance` with the session destructured (for rewriting). -/
theorem handle_result_advance_mk (B : ℤ) (r : ℕ) (P : Option Case) (w l : ℕ)
    (T q : ℤ) (sq : List Outcome) (o : Outcome) (pct npct : ℕ)
    (hp : pyIdx (effSched ⟨B, r, P, w, l, T, q, sq⟩ o) ((r : ℤ) - 1) = some pct)
    (hnp : pyIdx (effSched ⟨B, r, P, w, l, T, q, sq⟩ o) (((r + 1 : ℕ) : ℤ) - 1) = some npct)
    (hNT : ¬((o = Outcome.W ∧ 1 < r) ∨ (effSched ⟨B, r, P, w, l, T, q, sq⟩ o).length ≤ r)) :
    handle_result (some ⟨B, r, P, w, l, T, q, sq⟩) o =
      some (HandleOutput.advance (r + 1) (percent_of (B : ℚ) (npct : ℚ)),
        some ⟨B, r + 1, effPath ⟨B, r, P, w, l, T, q, sq⟩ o,
              (if o = Outcome.W then w + 1 else w),
              (if o = Outcome.W then l else l + 1),
              T + percent_of (B : ℚ) (pct : ℚ) + percent_of (B : ℚ) (npct : ℚ),
              nearest_ten (stepProfit ⟨B, r, P, w, l, T, q, sq⟩ o pct), sq ++ [o]⟩) :=
  handle_result_advance ⟨B, r, P, w, l, T, q, sq⟩ o pct npct hp hnp hNT

theorem nearest_ten_nonneg (x : ℚ) (h : 0 ≤ x) : 0 ≤ nearest_ten x := by
  unfold nearest_ten
  have : (0 : ℤ) ≤ ⌊x / 10⌋ := Int.floor_nonneg.mpr (by positivity)
  omega

theorem percent_of_nonneg (b p : ℚ) (hb : 0 ≤ b) (hp : 0 ≤ p) :
    0 ≤ percent_of b p := by
  unfold percent_of
  exact nearest_ten_nonneg _ (by positivity)

theorem nearest_ten_add_int_mul (x : ℚ) (k : ℤ) :
    nearest_ten (x + 10 * k) = nearest_ten x + 10 * k := by
  unfold nearest_ten
  have e : (x + 10 * (k : ℚ)) / 10 = x / 10 + (k : ℚ) := by ring
  rw [e, Int.floor_add_int]
  ring

theorem nearest_ten_int_mul_ten (k : ℤ) :
    nearest_ten ((10 * k : ℤ) : ℚ) = 10 * k := by
  have h := nearest_ten_add_int_mul 0 k
  simp only [zero_add] at h
  push_cast
  rw [h]
  simp [nearest_ten]

/-- Every `percent_of` value is ten times an integer. -/
theorem percent_of_mul_ten (b p : ℚ) : percent_of b p = 10 * ⌊b * p / 100 / 10⌋ := rfl

/-- The percentage schedule selected by a sequence's first tag. -/
def schedFor (outs : List Outcome) : List ℕ :=
  if outs.head? = some Outcome.W then CASE1 else CASE2

/-- `stake(round 1) + ... + stake(round n)` for a played sequence of length
`n`: the per-round stakes of the selected schedule, each counted once. -/
def stakesSum (base : ℤ) (outs : List Outcome) : ℤ :=
  (((schedFor outs).take outs.length).map
    (fun p => percent_of (base : ℚ) (p : ℚ))).sum

/-- Rewriting `nearest_ten (b * p / 100)` back to `percent_of`. -/
theorem percent_of_eq_nt (b p : ℚ) :
    nearest_ten (b * p / 100) = percent_of b p := rfl

/-- Subtracting a stake (a multiple of ten) commutes with the rounding. -/
theorem nearest_ten_sub_percent (x : ℚ) (b p : ℚ) :
    nearest_ten (x - (percent_of b p : ℚ)) = nearest_ten x - percent_of b p := by
  have h := nearest_ten_add_int_mul x (-⌊b * p / 100 / 10⌋)
  rw [percent_of_mul_ten]
  push_cast at h ⊢
  rw [show x - 10 * (⌊b * p / 100 / 10⌋ : ℚ) = x + 10 * (-⌊b * p / 100 / 10⌋ : ℚ) by ring]
  rw [show (10 : ℚ) * (-⌊b * p / 100 / 10⌋ : ℚ) = ((10 * -⌊b * p / 100 / 10⌋ : ℤ) : ℚ) by push_cast; ring] at h ⊢
  omega

/-- Rounding is idempotent. -/
theorem nearest_ten_cast (y : ℚ) :
    nearest_ten ((nearest_ten y : ℤ) : ℚ) = nearest_ten y :=
  nearest_ten_int_mul_ten _

/-- Negating a stake commutes with the rounding. -/
theorem nearest_ten_neg_percent (b p : ℚ) :
    nearest_ten (-(percent_of b p : ℚ)) = -percent_of b p := by
  rw [show -(percent_of b p : ℚ) = 0 - (percent_of b p : ℚ) by ring,
    nearest_ten_sub_percent]
  simp [nearest_ten]

/-- Inversion: a `handle_result` step that leaves a live state is the
advance branch, so the new state keeps the base balance, carries the
effective path, increments the round and appends the outcome. -/
theorem handle_result_some_some (s : Session) (o : Outcome) (out : HandleOutput)
    (s' : Session) (h : handle_result (some s) o = some (out, some s')) :
    s'.BaseBalance = s.BaseBalance ∧ s'.Path = effPath s o ∧
    s'.Round = s.Round + 1 ∧ s'.seq = s.seq ++ [o] := by
  have hE : (if (if s.Round = 1 then some (if o = Outcome.W then Case.case1 else Case.case2)
      else s.Path) = some Case.case1 then CASE1 else CASE2) = effSched s o := rfl
  unfold handle_result at h
  simp only [Option.getD_some] at h
  rw [hE] at h
  cases hpy : pyIdx (effSched s o) ((s.Round : ℤ) - 1) with
  | none => rw [hpy] at h; simp at h
  | some pct =>
    rw [hpy] at h
    rw [cap_eq s.BaseBalance] at h
    simp only [] at h
    by_cases hc1 : o = Outcome.W ∧ 1 < s.Round
    · rw [if_pos hc1] at h
      simp at h
    · rw [if_neg hc1] at h
      by_cases hc2 : (effSched s o).length ≤ s.Round
      · rw [if_pos hc2] at h
        simp at h
      · rw [if_neg hc2] at h
        cases hpy2 : pyIdx (effSched s o) (((s.Round + 1 : ℕ) : ℤ) - 1) with
        | none => rw [hpy2] at h; simp at h
        | some npct =>
          rw [hpy2] at h
          simp only [Option.some.injEq, Prod.mk.injEq] at h
          obtain ⟨-, hs'⟩ := h
          subst hs'
          exact ⟨rfl, rfl, rfl, rfl⟩

/-- C3 counterexample: a result submitted with no active session is NOT
rejected: `handle_result` mutates the (empty) state into an active phantom
round-2 session built from the dict defaults, instead of leaving it
unchanged. -/
theorem C3_counterexample :
    handle_result none Outcome.W =
      some (HandleOutput.advance 2 0,
        some ⟨0, 2, some Case.case1, 1, 0, 0, 0, [Outcome.W]⟩) ∧
    some (⟨0, 2, some Case.case1, 1, 0, 0, 0, [Outcome.W]⟩ : Session) ≠
      (none : Option Session) := by
  constructor
  · have e : handle_result none Outcome.W =
        handle_result (some defaultSession) Outcome.W := rfl
    rw [e]
    simp only [defaultSession]
    rw [handle_result_advance_mk 0 1 none 0 0 0 0 [] Outcome.W 10 10
      (by decide) (by decide) (by decide)]
    norm_num [effPath, stepProfit, percent_of, nearest_ten, TAX_RATE]
  · simp

/-- C3 (amended): a result submitted when no session is active (or after a
terminal summary, which clears the state) is not rejected and there is no
`InvalidTransition` signal: `handle_result` falls back to the dict defaults
(base 0, round 1), treats the submission as a phantom round-1 result, and
moves to an active round-2 session with zero stakes. -/
theorem C3_no_invalid_transition (o : Outcome) :
    handle_result none o =
      some (HandleOutput.advance 2 0,
        some ⟨0, 2, some (if o = Outcome.W then Case.case1 else Case.case2),
              (if o = Outcome.W then 1 else 0), (if o = Outcome.W then 0 else 1),
              0, 0, [o]⟩) := by
  have e : handle_result none o = handle_result (some defaultSession) o := rfl
  rw [e]
  simp only [defaultSession]
  cases o
  · rw [handle_result_advance_mk 0 1 none 0 0 0 0 [] Outcome.W 10 10
      (by decide) (by decide) (by decide)]
    norm_num [effPath, stepProfit, percent_of, nearest_ten, TAX_RATE]
  · rw [handle_result_advance_mk 0 1 none 0 0 0 0 [] Outcome.L 10 25
      (by decide) (by decide) (by decide)]
    norm_num [effPath, stepProfit, percent_of, nearest_ten, TAX_RATE]

/-- C5: a live `handle_result` step at round `n` (within the schedule) is
terminal iff (Win and n > 1) or n has reached the schedule length of the
case in force; a Win at round 1 never terminates; a terminal step emits a
summary (clearing the state) and a non-terminal one announces the stake of
round n + 1. -/
theorem C5_termination_rule (s : Session) (o : Outcome)
    (h1 : 1 ≤ s.Round) (h2 : s.Round ≤ (effSched s o).length) :
    ∃ (out : HandleOutput) (st' : Option Session),
      handle_result (some s) o = some (out, st') ∧
      (st' = none ↔ ((o = Outcome.W ∧ 1 < s.Round) ∨ (effSched s o).length ≤ s.Round)) ∧
      (st' = none → ∃ w l p pm pat ub rem,
        out = HandleOutput.summary s.Round w l p pm pat ub rem) ∧
      (st' ≠ none → ∃ stake, out = HandleOutput.advance (s.Round + 1) stake) ∧
      ¬(o = Outcome.W ∧ s.Round = 1 ∧ st' = none) := by
  have hp := pyIdx_round (effSched s o) s.Round h1 h2
  by_cases hT : (o = Outcome.W ∧ 1 < s.Round) ∨ (effSched s o).length ≤ s.Round
  · obtain ⟨pat, ub, rem, heq⟩ := handle_result_terminal s o _ hp hT
    refine ⟨_, none, heq, by simp [hT], fun _ => ⟨_, _, _, _, _, _, _, rfl⟩,
      fun hne => absurd rfl hne, ?_⟩
    rintro ⟨hW, hR1, -⟩
    have hlen : 2 ≤ (effSched s o).length := by
      unfold effSched; split <;> decide
    rcases hT with ⟨-, hgt⟩ | hle <;> omega
  · have hlt : s.Round < (effSched s o).length := by
      rcases not_or.mp hT with ⟨-, h⟩
      omega
    have hnp := pyIdx_round (effSched s o) (s.Round + 1) (by omega) (by omega)
    have heq := handle_result_advance s o _ _ hp hnp hT
    exact ⟨_, some _, heq, by simp [hT], fun hc => by simp at hc,
      fun _ => ⟨_, rfl⟩, by rintro ⟨-, -, hnone⟩; simp at hnone⟩

/-- Concrete in-round session used to witness the termination rule. -/
def sessW2 : Session := ⟨1000, 2, some Case.case1, 1, 0, 300, 90, [Outcome.W]⟩

/-- C5 witness: the termination rule applied to a round-2 session of Case A
receiving a Win (which is terminal). -/
theorem C5_termination_rule_witness :
    1 ≤ sessW2.Round ∧ sessW2.Round ≤ (effSched sessW2 Outcome.W).length ∧
    (∃ (out : HandleOutput) (st' : Option Session),
      handle_result (some sessW2) Outcome.W = some (out, st') ∧
      (st' = none ↔ ((Outcome.W = Outcome.W ∧ 1 < sessW2.Round) ∨
        (effSched sessW2 Outcome.W).length ≤ sessW2.Round)) ∧
      (st' = none → ∃ w l p pm pat ub rem,
        out = HandleOutput.summary sessW2.Round w l p pm pat ub rem) ∧
      (st' ≠ none → ∃ stake, out = HandleOutput.advance (sessW2.Round + 1) stake) ∧
      ¬(Outcome.W = Outcome.W ∧ sessW2.Round = 1 ∧ st' = none)) :=
  ⟨by decide, by decide, C5_termination_rule sessW2 Outcome.W (by decide) (by decide)⟩

/-- C9: once round 1's result has fixed the session's case, every later
result-handling step leaves the case unchanged, and the base balance is
never reassigned by a step. -/
theorem C9_frame (s : Session) (o : Outcome) (out : HandleOutput) (s' : Session)
    (h : handle_result (some s) o = some (out, some s')) :
    s'.BaseBalance = s.BaseBalance ∧
    (1 < s.Round → s'.Path = s.Path) ∧
    (s.Round = 1 → s'.Path = some (if o = Outcome.W then Case.case1 else Case.case2)) := by
  obtain ⟨hB, hP, -, -⟩ := handle_result_some_some s o out s' h
  refine ⟨hB, fun hr => ?_, fun hr => ?_⟩
  · rw [hP]
    unfold effPath
    rw [if_neg (by omega)]
  · rw [hP]
    unfold effPath
    rw [if_pos hr]

/-- Concrete round-1 session used to witness the frame property. -/
def sessL1 : Session := ⟨1000, 1, none, 0, 0, 100, 0, []⟩

/-- C9 witness: a round-1 Lose fixes Case B and keeps the base balance. -/
theorem C9_frame_witness :
    handle_result (some sessL1) Outcome.L =
      some (HandleOutput.advance 2 250,
        some ⟨1000, 2, some Case.case2, 0, 1, 450, -100, [Outcome.L]⟩) ∧
    ((⟨1000, 2, some Case.case2, 0, 1, 450, -100, [Outcome.L]⟩ : Session).BaseBalance =
        sessL1.BaseBalance ∧
      (1 < sessL1.Round →
        (⟨1000, 2, some Case.case2, 0, 1, 450, -100, [Outcome.L]⟩ : Session).Path =
          sessL1.Path) ∧
      (sessL1.Round = 1 →
        (⟨1000, 2, some Case.case2, 0, 1, 450, -100, [Outcome.L]⟩ : Session).Path =
          some (if Outcome.L = Outcome.W then Case.case1 else Case.case2))) := by
  have prf : handle_result (some sessL1) Outcome.L =
      some (HandleOutput.advance 2 250,
        some ⟨1000, 2, some Case.case2, 0, 1, 450, -100, [Outcome.L]⟩) := by
    simp only [sessL1]
    rw [handle_result_advance_mk 1000 1 none 0 0 100 0 [] Outcome.L 10 25
      (by decide) (by decide) (by decide)]
    norm_num [effPath, stepProfit, percent_of, nearest_ten, TAX_RATE]
    refine ⟨by simp, by simp, ?_⟩
    rw [if_neg (show ¬(Outcome.L = Outcome.W) from by decide)]
    norm_num
  exact ⟨prf, C9_frame _ _ _ _ prf⟩

/-- C10: at session start the balance is floored to the nearest ten before
being stored as the base (1005 starts with base 1000); the stored base is a
multiple of ten; the round-1 stake is derived from the normalized value; and
result handling never reassigns the base. -/
theorem C10_base_floored :
    (∀ input : ℚ,
      (process_balance input).1.BaseBalance = nearest_ten input ∧
      (process_balance input).1.BaseBalance % 10 = 0 ∧
      (process_balance input).2 =
        percent_of ((nearest_ten input : ℤ) : ℚ) ((CASE1.headD 0 : ℕ) : ℚ)) ∧
    (process_balance 1005).1.BaseBalance = 1000 ∧
    (∀ (s : Session) (o : Outcome) (out : HandleOutput) (s' : Session),
      handle_result (some s) o = some (out, some s') →
      s'.BaseBalance = s.BaseBalance) := by
  refine ⟨fun input => ⟨rfl, ?_, rfl⟩, ?_,
    fun s o out s' h => (handle_result_some_some s o out s' h).1⟩
  · show nearest_ten input % 10 = 0
    unfold nearest_ten
    exact Int.mul_emod_right 10 _
  · norm_num [process_balance, nearest_ten]

/-- Concrete round-1 session used to witness base-balance preservation. -/
def sess500 : Session := ⟨500, 1, none, 0, 0, 50, 0, []⟩

/-- C10 witness: the base stays 500 across a round-1 Win. -/
theorem C10_base_floored_witness :
    handle_result (some sess500) Outcome.W =
      some (HandleOutput.advance 2 50,
        some ⟨500, 2, some Case.case1, 1, 0, 150, 40, [Outcome.W]⟩) ∧
    ((⟨500, 2, some Case.case1, 1, 0, 150, 40, [Outcome.W]⟩ : Session).BaseBalance =
      sess500.BaseBalance) := by
  have prf : handle_result (some sess500) Outcome.W =
      some (HandleOutput.advance 2 50,
        some ⟨500, 2, some Case.case1, 1, 0, 150, 40, [Outcome.W]⟩) := by
    simp only [sess500]
    rw [handle_result_advance_mk 500 1 none 0 0 50 0 [] Outcome.W 10 10
      (by decide) (by decide) (by decide)]
    norm_num [effPath, stepProfit, percent_of, nearest_ten, TAX_RATE]
  exact ⟨prf, C10_base_floored.2.2 _ _ _ _ prf⟩

/-- C1 counterexample: playing Win, Win from balance 1000 stakes 100 in each
of the two rounds (so the stakes sum to 200), but the summary's "Amount
Placed" is 400, not 200 — each round's stake is counted twice. -/
theorem C1_counterexample :
    liveFinalPlaced 1000 [Outcome.W, Outcome.W] = some 400 ∧
    stakesSum (nearest_ten 1000) [Outcome.W, Outcome.W] = 200 ∧
    ((400 : ℤ) ≠ 200) := by
  refine ⟨?_, ?_, by decide⟩
  · simp [liveFinalPlaced, runSession, process_balance, runRounds,
      handle_result_advance_mk, handle_result_terminal_mk, effSched, effPath,
      stepProfit, pyIdx, CASE1, CASE2, List.getD]
    norm_num [percent_of, nearest_ten]
  · norm_num [stakesSum, schedFor, CASE1, percent_of, nearest_ten]

/-- C1 (amended): when a session started from `balance` terminates after
playing a complete outcome sequence of rounds 1..n, the summary's "Amount
Placed" equals 2 × (stake(round 1) + ... + stake(round n)) — each round's
stake is added once when it is announced and once more when its result is
processed — and `TotalPlaced` is monotonically non-decreasing throughout
the session. -/
theorem C1_total_staked (balance : ℚ) (outs : List Outcome)
    (hmem : outs ∈ generate_possible_outcome_sequences) (hb : 0 ≤ balance) :
    liveFinalPlaced balance outs =
      some (2 * stakesSum (nearest_ten balance) outs) ∧
    (placedTrace balance outs).Chain' (· ≤ ·) := by
  have hB : (0 : ℚ) ≤ ((nearest_ten balance : ℤ) : ℚ) := by
    exact_mod_cast nearest_ten_nonneg balance hb
  have h10 := percent_of_nonneg _ 10 hB (by norm_num)
  have h15 := percent_of_nonneg _ 15 hB (by norm_num)
  have h25 := percent_of_nonneg _ 25 hB (by norm_num)
  have h30 := percent_of_nonneg _ 30 hB (by norm_num)
  have h50 := percent_of_nonneg _ 50 hB (by norm_num)
  have h65 := percent_of_nonneg _ 65 hB (by norm_num)
  rw [genSeqs_eq] at hmem
  fin_cases hmem <;>
    refine ⟨?_, ?_⟩ <;>
    simp [liveFinalPlaced, runSession, process_balance, runRounds,
      handle_result_advance_mk, handle_result_terminal_mk, effSched, effPath,
      stepProfit, pyIdx, CASE1, CASE2, stakesSum, schedFor, List.getD,
      placedTrace, placedTraceAux, List.chain'_cons] <;>
    first
    | ring1
    | (and_intros <;> linarith)

/-- C1 witness: the double-counted total and the monotone trace for the
sequence Lose, Lose, Win from balance 1000. -/
theorem C1_total_staked_witness :
    [Outcome.L, Outcome.L, Outcome.W] ∈ generate_possible_outcome_sequences ∧
    (0 : ℚ) ≤ 1000 ∧
    (liveFinalPlaced 1000 [Outcome.L, Outcome.L, Outcome.W] =
      some (2 * stakesSum (nearest_ten 1000) [Outcome.L, Outcome.L, Outcome.W]) ∧
    (placedTrace 1000 [Outcome.L, Outcome.L, Outcome.W]).Chain' (· ≤ ·)) :=
  ⟨by rw [genSeqs_eq]; decide, by norm_num,
   C1_total_staked 1000 [Outcome.L, Outcome.L, Outcome.W]
     (by rw [genSeqs_eq]; decide) (by norm_num)⟩

/-- C2 counterexample: from balance 500 with outcomes Win, Win the live
machine rounds after each accumulation (40 after round 1, then 80), while
the simulator rounds only once at the end and returns 90. -/
theorem C2_counterexample :
    liveFinalProfit 500 [Outcome.W, Outcome.W] = some 80 ∧
    simulate_session_profit_for_path (nearest_ten 500) [Outcome.W, Outcome.W] =
      some 90 ∧
    ((80 : ℤ) ≠ 90) := by
  refine ⟨?_, ?_, by decide⟩
  · simp [liveFinalProfit, runSession, process_balance, runRounds,
      handle_result_advance_mk, handle_result_terminal_mk, effSched, effPath,
      stepProfit, pyIdx, CASE1, CASE2, List.getD, TAX_RATE]
    norm_num [percent_of, nearest_ten]
  · rw [show nearest_ten 500 = 500 by norm_num [nearest_ten]]
    rw [sim_cons]
    norm_num [simulateAux, CASE1, nearest_ten, TAX_RATE]

/-- C2 (amended): the simulator matches the live machine's case selection by
the first tag, per-round percentage lookup, 10% tax on wins, and early stop
on a win after round 1, but it applies the rounding only once at the end,
whereas the live machine rounds after every accumulation.  The final
profits therefore agree on every enumerated sequence that starts with a
Lose or ends by exhausting the schedule (at most one accumulated increment
is then not a multiple of ten), but can differ on Win-rooted sequences that
end with a terminal win. -/
theorem C2_simulator_vs_live (balance : ℚ) (outs : List Outcome)
    (hmem : outs ∈ generate_possible_outcome_sequences)
    (hcond : outs.head? = some Outcome.L ∨ outs.getLast? = some Outcome.L) :
    liveFinalProfit balance outs =
      simulate_session_profit_for_path (nearest_ten balance) outs := by
  rw [genSeqs_eq] at hmem
  fin_cases hmem <;>
  first
  | exact absurd hcond (by decide)
  | (simp [liveFinalProfit, runSession, process_balance, runRounds,
      handle_result_advance_mk, handle_result_terminal_mk, effSched, effPath,
      stepProfit, pyIdx, CASE1, CASE2, List.getD, sim_cons, simulateAux,
      TAX_RATE, percent_of_eq_nt, nearest_ten_sub_percent, nearest_ten_cast,
      nearest_ten_neg_percent]
     done)
  | (simp [liveFinalProfit, runSession, process_balance, runRounds,
      handle_result_advance_mk, handle_result_terminal_mk, effSched, effPath,
      stepProfit, pyIdx, CASE1, CASE2, List.getD, sim_cons, simulateAux,
      TAX_RATE, percent_of_eq_nt, nearest_ten_sub_percent, nearest_ten_cast,
      nearest_ten_neg_percent]
     rw [← nearest_ten_sub_percent]
     congr 1
     ring)

/-- C2 witness: the simulator and the live machine agree on Lose, Lose, Win
from balance 1000. -/
theorem C2_simulator_vs_live_witness :
    [Outcome.L, Outcome.L, Outcome.W] ∈ generate_possible_outcome_sequences ∧
    ([Outcome.L, Outcome.L, Outcome.W].head? = some Outcome.L ∨
      [Outcome.L, Outcome.L, Outcome.W].getLast? = some Outcome.L) ∧
    liveFinalProfit 1000 [Outcome.L, Outcome.L, Outcome.W] =
      simulate_session_profit_for_path (nearest_ten 1000)
        [Outcome.L, Outcome.L, Outcome.W] :=
  ⟨by rw [genSeqs_eq]; decide, by decide,
   C2_simulator_vs_live 1000 [Outcome.L, Outcome.L, Outcome.W]
     (by rw [genSeqs_eq]; decide) (by decide)⟩
